import Mathlib

/-!
Verification development for the HIFI multi-marketplace search tool.

The Python source is shallowly embedded:
  * `normalize_date` (src/utils.py) and `parse_date` (src/HIFI_search.py) are
    modelled together with functional versions of the regular-expression
    searches they perform (leftmost-match with backtracking, exactly as
    Python's `re.search` behaves on the concrete patterns of the source).
  * Python `datetime` values are modelled by `PyDateTime` (proleptic Gregorian
    calendar, microsecond resolution); `timedelta` arithmetic goes through a
    day-number conversion; an uncaught `ValueError` is modelled as the
    `Except.error` branch. Python float prices are modelled as integers: no
    claim depends on fractional prices.
  * the orchestrator `AudioSearch.search_all`, the filter `filter_by_days`,
    the date sort key of `format_results`, the query expansion
    `expand_search_term` and the signature-deduplicating aggregation loop of
    `main` are embedded as pure functions over explicit provider outcomes.
-/

/-! ## Characters and strings (Python `str` helpers) -/

def isDigitC (c : Char) : Bool := c.isDigit

def isAlphaC (c : Char) : Bool := c.isAlpha

/-- Python's `\w` (word character) for the character repertoire of this
application: ASCII alphanumerics, underscore and the Swedish letters. -/
def isWordC (c : Char) : Bool :=
  c.isAlphanum || c = '_' || c = 'å' || c = 'ä' || c = 'ö' || c = 'Å' || c = 'Ä' || c = 'Ö'

/-- Python's `\s` on the inputs that occur here. -/
def isSpaceC (c : Char) : Bool :=
  c = ' ' || c = '\t' || c = '\n' || c = '\r' || c = '\x0b' || c = '\x0c'

/-- Python `str.lower` on the character repertoire of this application. -/
def lowerC (c : Char) : Char :=
  if 'A' ≤ c ∧ c ≤ 'Z' then Char.ofNat (c.toNat + 32)
  else if c = 'Å' then 'å'
  else if c = 'Ä' then 'ä'
  else if c = 'Ö' then 'ö'
  else c

def pyLower (s : String) : String := String.mk (s.data.map lowerC)

def pyStrip (s : String) : String :=
  String.mk (((s.data.dropWhile isSpaceC).reverse.dropWhile isSpaceC).reverse)

def isPrefixC : List Char → List Char → Bool
  | [], _ => true
  | _ :: _, [] => false
  | p :: ps, c :: cs => p == c && isPrefixC ps cs

/-- `containsSub pat hay`: does `pat` occur as a contiguous substring of `hay`
(Python's `pat in hay`)? -/
def containsSub (pat : List Char) : List Char → Bool
  | [] => pat.isEmpty
  | c :: rest => isPrefixC pat (c :: rest) || containsSub pat rest

/-- Drop `pat` from the front of the list, if it is a prefix. -/
def dropPre : List Char → List Char → Option (List Char)
  | [], s => some s
  | _ :: _, [] => none
  | p :: ps, c :: cs => if p = c then dropPre ps cs else none

/-- Python `str.replace`, non-overlapping and left to right; structural
recursion on a fuel that bounds the input length (each step consumes at least
one character, so the fuel never runs out on the initial call). -/
def replaceSubAux (pat rep : List Char) : Nat → List Char → List Char
  | 0, l => l
  | _ + 1, [] => []
  | fuel + 1, c :: rest =>
    if pat ≠ [] ∧ isPrefixC pat (c :: rest) then
      rep ++ replaceSubAux pat rep fuel (rest.drop (pat.length - 1))
    else
      c :: replaceSubAux pat rep fuel rest

def replaceSub (pat rep : List Char) (l : List Char) : List Char :=
  replaceSubAux pat rep l.length l

def splitWhile (p : Char → Bool) : List Char → List Char × List Char
  | [] => ([], [])
  | c :: rest =>
    if p c then
      let r := splitWhile p rest
      (c :: r.1, r.2)
    else ([], c :: rest)

/-- Take exactly `n` characters satisfying `p`; `none` if impossible. -/
def takeExact (p : Char → Bool) : Nat → List Char → Option (List Char × List Char)
  | 0, s => some ([], s)
  | _ + 1, [] => none
  | n + 1, c :: s =>
    if p c then (takeExact p n s).map (fun pr => (c :: pr.1, pr.2)) else none

def natFromDigits (l : List Char) : Nat :=
  l.foldl (fun a c => a * 10 + (c.toNat - 48)) 0

def headIsWord : List Char → Bool
  | [] => false
  | c :: _ => isWordC c

/-- Python regex `\b` between a previous character (`none` = string start) and
the rest of the input: boundary iff exactly one side is a word character. -/
def bndry (prev : Option Char) (s : List Char) : Bool :=
  (match prev with
   | none => false
   | some c => isWordC c) != headIsWord s

/-- `\b` when the word-ness of the last consumed character is known. -/
def bndryW (lastWord : Bool) (s : List Char) : Bool := lastWord != headIsWord s

/-- All ways to split off a (possibly empty) prefix of characters satisfying
`p`, greediest first — the backtracking order of a `\s*` in Python regex. -/
def prefixesDesc (p : Char → Bool) : List Char → List (Nat × List Char)
  | [] => [(0, [])]
  | c :: rest =>
    if p c then
      ((prefixesDesc p rest).map (fun kr => (kr.1 + 1, kr.2))) ++ [(0, c :: rest)]
    else [(0, c :: rest)]

/-- `re.search` driver: try the position matcher `f` at every position, left to
right, threading the previous character for `\b` tests. -/
def scanFrom {α : Type} (f : Option Char → List Char → Option α) :
    Option Char → List Char → Option α
  | prev, [] => f prev []
  | prev, c :: rest =>
    match f prev (c :: rest) with
    | some a => some a
    | none => scanFrom f (some c) rest

/-! ## Calendar arithmetic (Python `datetime` / `timedelta`) -/

def isLeap (y : Nat) : Bool := y % 4 == 0 && (y % 100 != 0 || y % 400 == 0)

def daysInMonth (y m : Nat) : Nat :=
  if m = 2 then (if isLeap y then 29 else 28)
  else if m = 4 ∨ m = 6 ∨ m = 9 ∨ m = 11 then 30
  else 31

/-- Validity of the arguments of Python's `datetime(year, month, day)`
constructor (`ValueError` otherwise). -/
def validYMD (y m d : Nat) : Bool :=
  1 ≤ y && y ≤ 9999 && 1 ≤ m && m ≤ 12 && 1 ≤ d && d ≤ daysInMonth y m

/-- Days since 1970-01-01 of a proleptic Gregorian date (valid `y ≥ 1`). -/
def rataDays (y m d : Nat) : Int :=
  let yAdj := if m ≤ 2 then y - 1 else y
  let era := yAdj / 400
  let yoe := yAdj % 400
  let mp := (m + 9) % 12
  let doy := (153 * mp + 2) / 5 + d - 1
  let doe := yoe * 365 + yoe / 4 - yoe / 100 + doy
  ((era * 146097 + doe : Nat) : Int) - 719468

/-- Inverse of `rataDays`: the Gregorian date of a day number. -/
def civilFromDays (z : Int) : Nat × Nat × Nat :=
  let zn := (z + 719468).toNat
  let era := zn / 146097
  let doe := zn % 146097
  let yoe := (doe - doe / 1460 + doe / 36524 - doe / 146096) / 365
  let y := yoe + era * 400
  let doy := doe - (365 * yoe + yoe / 4 - yoe / 100)
  let mp := (5 * doy + 2) / 153
  let d := doy - (153 * mp + 2) / 5 + 1
  let m := if mp < 10 then mp + 3 else mp - 9
  (if m ≤ 2 then y + 1 else y, m, d)

/-- Python `datetime.datetime` (naive): date plus time of day. -/
structure PyDateTime where
  year : Nat
  month : Nat
  day : Nat
  hour : Nat
  minute : Nat
  second : Nat
  micro : Nat
deriving DecidableEq

/-- Microseconds since the epoch; the model of `datetime.timestamp()` (the
source runs with a fixed local timezone, which only shifts every timestamp by
the same constant and so never affects an ordering). -/
def dtMicros (t : PyDateTime) : Int :=
  rataDays t.year t.month t.day * 86400000000
    + ((((t.hour * 60 + t.minute) * 60 + t.second) * 1000000 + t.micro : Nat) : Int)

def dtOfMicros (z : Int) : PyDateTime :=
  let dayCount := Int.ediv z 86400000000
  let rem := (Int.emod z 86400000000).toNat
  let ymd := civilFromDays dayCount
  { year := ymd.1, month := ymd.2.1, day := ymd.2.2,
    hour := rem / 3600000000,
    minute := rem % 3600000000 / 60000000,
    second := rem % 60000000 / 1000000,
    micro := rem % 1000000 }

/-- `t - timedelta(days = n)` (time of day unchanged). -/
def dtSubDays (t : PyDateTime) (n : Nat) : PyDateTime :=
  let ymd := civilFromDays (rataDays t.year t.month t.day - (n : Int))
  { t with year := ymd.1, month := ymd.2.1, day := ymd.2.2 }

/-- `t - timedelta(...)` for a sub-day amount given in microseconds. -/
def dtSubMicros (t : PyDateTime) (n : Nat) : PyDateTime :=
  dtOfMicros (dtMicros t - (n : Int))

/-- `.replace(hour=0, minute=0, second=0, microsecond=0)`. -/
def midnightOf (t : PyDateTime) : PyDateTime :=
  { t with hour := 0, minute := 0, second := 0, micro := 0 }

def mkMidnight (y m d : Nat) : PyDateTime := ⟨y, m, d, 0, 0, 0, 0⟩

/-- `datetime(y, m, d)` — `none` models the `ValueError`. -/
def mkDT (y m d : Nat) : Option PyDateTime :=
  if validYMD y m d then some (mkMidnight y m d) else none

/-- Mixed-radix encoding realising Python's lexicographic `datetime`
comparison on in-range field values. -/
def dtCode (t : PyDateTime) : Nat :=
  ((((((t.year * 13 + t.month) * 32 + t.day) * 24 + t.hour) * 60 + t.minute)
      * 60 + t.second) * 1000000 + t.micro)

def dtLeB (a b : PyDateTime) : Bool := Nat.ble (dtCode a) (dtCode b)

def dtGtB (a b : PyDateTime) : Bool := Nat.blt (dtCode b) (dtCode a)

/-- Zero-padding numeric formatting, Python's `f"{n:0wd}"`. -/
def padNum (n w : Nat) : String :=
  let s := toString n
  if s.length < w then String.mk (List.replicate (w - s.length) '0') ++ s else s

def isoFmt (y m d : Nat) : String :=
  padNum y 4 ++ "-" ++ padNum m 2 ++ "-" ++ padNum d 2

/-- `strftime('%Y-%m-%d')` of a datetime, with `%Y` zero-padded to four
digits (exact for years ≥ 1000, which covers every date the claims are
about; below that the padding of `%Y` is platform-defined in Python). -/
def fmtYmd (t : PyDateTime) : String := isoFmt t.year t.month t.day

/-! ## Regular-expression matchers

Each matcher is the functional semantics of one concrete pattern of the
source, honouring `re.search`'s leftmost-position preference and the
backtracking order of greedy quantifiers. -/

/-- Position matcher for `(\d+)\s+(day|days)\s+ago` (and the equivalent
`(\d+)\s+(day|days?)\s+ago` of `parse_date`), with `unit` the unit word;
applied to lowercased text, which realises `re.I`. -/
def agoAt (unit : List Char) (_prev : Option Char) (s : List Char) : Option Nat :=
  let dsp := splitWhile isDigitC s
  if dsp.1.isEmpty then none
  else
    let sp1 := splitWhile isSpaceC dsp.2
    if sp1.1.isEmpty then none
    else
      match dropPre unit sp1.2 with
      | none => none
      | some r1 =>
        let r2 := match r1 with
          | 's' :: t => t
          | _ => r1
        let sp2 := splitWhile isSpaceC r2
        if sp2.1.isEmpty then none
        else
          match dropPre ['a', 'g', 'o'] sp2.2 with
          | none => none
          | some _ => some (natFromDigits dsp.1)

def findAgo (unit : List Char) (t : List Char) : Option Nat :=
  scanFrom (agoAt unit) none t

/-- Helper: tail `:\d{2}$` of the time-of-day pattern. -/
def timeTail : List Char → Bool
  | ':' :: r =>
    (match takeExact isDigitC 2 r with
     | some (_, []) => true
     | _ => false)
  | _ => false

/-- `re.match(r"^\d{1,2}:\d{2}$", text)`. -/
def timeOnlyMatch (s : List Char) : Bool :=
  (match takeExact isDigitC 2 s with
   | some (_, r) => timeTail r
   | none => false)
  || (match takeExact isDigitC 1 s with
      | some (_, r) => timeTail r
      | none => false)

/-- Position matcher for `\b(\d{4})-(\d{2})-(\d{2})\b` (utils.ISO_PATTERN). -/
def isoBAt (prev : Option Char) (s : List Char) : Option (Nat × Nat × Nat) :=
  if bndry prev s then
    match takeExact isDigitC 4 s with
    | none => none
    | some (ys, r1) =>
      match r1 with
      | '-' :: r2 =>
        (match takeExact isDigitC 2 r2 with
         | none => none
         | some (ms, r3) =>
           match r3 with
           | '-' :: r4 =>
             (match takeExact isDigitC 2 r4 with
              | none => none
              | some (ds, r5) =>
                if bndryW true r5 then
                  some (natFromDigits ys, natFromDigits ms, natFromDigits ds)
                else none)
           | _ => none)
      | _ => none
  else none

/-- Position matcher for `(\d{4})-(\d{2})-(\d{2})` (parse_date, no `\b`). -/
def isoNBAt (_prev : Option Char) (s : List Char) : Option (Nat × Nat × Nat) :=
  match takeExact isDigitC 4 s with
  | none => none
  | some (ys, r1) =>
    match r1 with
    | '-' :: r2 =>
      (match takeExact isDigitC 2 r2 with
       | none => none
       | some (ms, r3) =>
         match r3 with
         | '-' :: r4 =>
           (match takeExact isDigitC 2 r4 with
            | none => none
            | some (ds, _) =>
              some (natFromDigits ys, natFromDigits ms, natFromDigits ds))
         | _ => none)
    | _ => none

def slashSep (c : Char) : Bool := c = '/' || c = '-'

/-- Core of the slash-or-dash date pattern `(\d{1,2}) SEP (\d{1,2}) SEP
(\d{2,4})` where SEP is the class of `/` and `-`; `needB` adds the trailing
`\b` of utils.SLASH_PATTERN.  Returns `(day, month, year)` digits. -/
def slashCoreAt (needB : Bool) (s : List Char) : Option (Nat × Nat × Nat) :=
  [2, 1].findSome? fun dn =>
    (takeExact isDigitC dn s).bind fun pr1 =>
      match pr1.2 with
      | c1 :: r1 =>
        if slashSep c1 then
          [2, 1].findSome? fun mn =>
            (takeExact isDigitC mn r1).bind fun pr2 =>
              match pr2.2 with
              | c2 :: r2 =>
                if slashSep c2 then
                  [4, 3, 2].findSome? fun yn =>
                    (takeExact isDigitC yn r2).bind fun pr3 =>
                      if needB then
                        (if bndryW true pr3.2 then
                          some (natFromDigits pr1.1, natFromDigits pr2.1, natFromDigits pr3.1)
                         else none)
                      else
                        some (natFromDigits pr1.1, natFromDigits pr2.1, natFromDigits pr3.1)
                else none
              | [] => none
        else none
      | [] => none

/-- utils.SLASH_PATTERN: the slash-or-dash pattern wrapped in `\b` at both
ends. -/
def slashBAt (prev : Option Char) (s : List Char) : Option (Nat × Nat × Nat) :=
  if bndry prev s then slashCoreAt true s else none

/-- parse_date's slash-or-dash pattern (no word boundaries). -/
def slashNBAt (_prev : Option Char) (s : List Char) : Option (Nat × Nat × Nat) :=
  slashCoreAt false s

/-- Greedy length order of `[A-Za-z]{3,9}`. -/
def alphaLens : List Nat := [9, 8, 7, 6, 5, 4, 3]

/-- Suffix `\s*(\d{2,4})?\b` shared by utils' month-first and day-first
patterns.  `lastWord` is the word-ness of the character consumed just before;
the result is the optional year group. -/
def mfFinish (lastWord : Bool) (s : List Char) : Option (Option Nat) :=
  (prefixesDesc isSpaceC s).findSome? fun kr =>
    let lw := if kr.1 = 0 then lastWord else false
    match [4, 3, 2].findSome? fun n =>
        (takeExact isDigitC n kr.2).bind fun pr =>
          if bndryW true pr.2 then some (some (natFromDigits pr.1)) else none with
    | some y => some y
    | none => if bndryW lw kr.2 then some none else none

/-- Position matcher for `\b([A-Za-z]{3,9})\s+(\d{1,2}),?\s*(\d{2,4})?\b`
(utils.MONTH_FIRST_PATTERN): month token, day, optional year. -/
def mfAt (prev : Option Char) (s : List Char) : Option (List Char × Nat × Option Nat) :=
  if bndry prev s then
    alphaLens.findSome? fun an =>
      (takeExact isAlphaC an s).bind fun prm =>
        let sp := splitWhile isSpaceC prm.2
        if sp.1.isEmpty then none
        else
          [2, 1].findSome? fun dn =>
            (takeExact isDigitC dn sp.2).bind fun prd =>
              let day := natFromDigits prd.1
              match prd.2 with
              | ',' :: r4 =>
                (match (mfFinish false r4).map fun y => (prm.1, day, y) with
                 | some a => some a
                 | none => (mfFinish true prd.2).map fun y => (prm.1, day, y))
              | _ => (mfFinish true prd.2).map fun y => (prm.1, day, y)
  else none

/-- Position matcher for `\b(\d{1,2})\s+([A-Za-z]{3,9})\s*(\d{2,4})?\b`
(utils.DAY_FIRST_PATTERN): day, month token, optional year. -/
def dfAt (prev : Option Char) (s : List Char) : Option (Nat × List Char × Option Nat) :=
  if bndry prev s then
    [2, 1].findSome? fun dn =>
      (takeExact isDigitC dn s).bind fun prd =>
        let sp := splitWhile isSpaceC prd.2
        if sp.1.isEmpty then none
        else
          alphaLens.findSome? fun an =>
            (takeExact isAlphaC an sp.2).bind fun prm =>
              (mfFinish true prm.2).map fun y => (natFromDigits prd.1, prm.1, y)
  else none

/-- Position matcher for `([A-Z][a-z]{2})\s+(\d{1,2}),\s+(\d{4})`
(parse_date, case sensitive): month token, day, year. -/
def mfpAt (_prev : Option Char) (s : List Char) : Option (List Char × Nat × Nat) :=
  match s with
  | c1 :: c2 :: c3 :: r1 =>
    if c1.isUpper && c2.isLower && c3.isLower then
      let sp1 := splitWhile isSpaceC r1
      if sp1.1.isEmpty then none
      else
        [2, 1].findSome? fun dn =>
          (takeExact isDigitC dn sp1.2).bind fun prd =>
             match prd.2 with
             | ',' :: r2 =>
               let sp2 := splitWhile isSpaceC r2
               if sp2.1.isEmpty then none
               else
                 (takeExact isDigitC 4 sp2.2).map fun pry =>
                   ([c1, c2, c3], natFromDigits prd.1, natFromDigits pry.1)
             | _ => none
    else none
  | _ => none

/-- Optional year suffix `\.?\s*(?:,?\s*(\d{4}))?` of parse_date's day-first
pattern. -/
def dfpYear (s : List Char) : Option Nat :=
  let r1 := match s with
    | '.' :: t => t
    | _ => s
  let r2 := (splitWhile isSpaceC r1).2
  let r3 := match r2 with
    | ',' :: t => t
    | _ => r2
  let r4 := (splitWhile isSpaceC r3).2
  (takeExact isDigitC 4 r4).map fun pr => natFromDigits pr.1

/-- Position matcher for `(\d{1,2})\s+([a-z]{3})\.?\s*(?:,?\s*(\d{4}))?`
(parse_date, `re.I`, applied to lowercased text). -/
def dfpAt (_prev : Option Char) (s : List Char) : Option (Nat × List Char × Option Nat) :=
  [2, 1].findSome? fun dn =>
    (takeExact isDigitC dn s).bind fun prd =>
      let sp := splitWhile isSpaceC prd.2
      if sp.1.isEmpty then none
      else
        (takeExact isAlphaC 3 sp.2).map fun prm =>
          (natFromDigits prd.1, prm.1, dfpYear prm.2)

/-! ## `normalize_date` (src/utils.py) -/

/-- The 3-letter keys of utils.MONTH_MAP (the merge of SWEDISH_MONTHS and
ENGLISH_MONTHS); `normalize_date` looks months up by the first three letters
of the token, so only length-3 keys are reachable. -/
def monthMap3Pairs : List (List Char × Nat) :=
  [(['j','a','n'], 1), (['f','e','b'], 2), (['m','a','r'], 3), (['a','p','r'], 4),
   (['m','a','j'], 5), (['m','a','y'], 5), (['j','u','n'], 6), (['j','u','l'], 7),
   (['a','u','g'], 8), (['s','e','p'], 9), (['o','k','t'], 10), (['o','c','t'], 10),
   (['n','o','v'], 11), (['d','e','c'], 12)]

def monthMap3 (s : List Char) : Option Nat := monthMap3Pairs.lookup s

/-- The union of parse_date's local `english_months` and `swedish_months`
dictionaries (the source consults one then the other; the two agree on the
shared keys, so a single lookup is equivalent). -/
def pdMonthPairs : List (List Char × Nat) := monthMap3Pairs

def pdMonth (s : List Char) : Option Nat := pdMonthPairs.lookup s

/-- Outcome of the purely textual part of `normalize_date` (everything except
the substitution of "now"). -/
inductive NDOut where
  | unparsed
  | todayD
  | yesterdayD
  | daysAgo (n : Nat)
  | hoursAgo (n : Nat)
  | weeksAgo (n : Nat)
  /-- a date rendered directly (ISO, slash, or textual with explicit year);
  the source performs no validity check on these. -/
  | litDate (y m d : Nat)
  /-- textual date without a year: resolved against the current year, with a
  `datetime` construction that can raise. -/
  | yearlessDate (m d : Nat)
deriving DecidableEq

/-- The `RELATIVE_KEYWORDS` replacement loop of `normalize_date` (dict
iteration order = insertion order). -/
def applyReplacements (t : List Char) : List Char :=
  let t1 := replaceSub ['i','d','a','g'] ['t','o','d','a','y'] t
  let t2 := replaceSub ['i','g','å','r'] ['y','e','s','t','e','r','d','a','y'] t1
  let t3 := replaceSub ['j','u','s','t',' ','n','u'] ['j','u','s','t',' ','n','o','w'] t2
  replaceSub ['j','u','s','t','n','o','w'] ['j','u','s','t',' ','n','o','w'] t3

/-- Day-first branch of `normalize_date` (the last pattern tried). -/
def ncDayFirst (t : List Char) : NDOut :=
  match scanFrom dfAt none t with
  | none => .unparsed
  | some (day, mon, yOpt) =>
    match monthMap3 (mon.take 3) with
    | none => .unparsed
    | some m =>
      match yOpt with
      | some y => .litDate y m day
      | none => .yearlessDate m day

/-- Month-first branch of `normalize_date`; falls through to the day-first
branch when the pattern does not match or the month token is unknown. -/
def ncMonthFirst (t : List Char) : NDOut :=
  match scanFrom mfAt none t with
  | none => ncDayFirst t
  | some (mon, day, yOpt) =>
    match monthMap3 (mon.take 3) with
    | none => ncDayFirst t
    | some m =>
      match yOpt with
      | some y => .litDate y m day
      | none => .yearlessDate m day

/-- The textual analysis of `normalize_date`: strip, lowercase, keyword
replacement, then the patterns in source order. -/
def normClassify (date_str : String) : NDOut :=
  if date_str = "" then .unparsed
  else
    let text := pyLower (pyStrip date_str)
    if text = "" then .unparsed
    else
      let t := applyReplacements text.data
      if containsSub ['j','u','s','t',' ','n','o','w'] t
          || containsSub ['j','u','s','t',' ','n','u'] t then .todayD
      else if containsSub ['t','o','d','a','y'] t then .todayD
      else if containsSub ['y','e','s','t','e','r','d','a','y'] t then .yesterdayD
      else
        match findAgo ['d','a','y'] t with
        | some n => .daysAgo n
        | none =>
          match findAgo ['h','o','u','r'] t with
          | some n => .hoursAgo n
          | none =>
            match findAgo ['w','e','e','k'] t with
            | some n => .weeksAgo n
            | none =>
              if timeOnlyMatch t then .todayD
              else
                match scanFrom isoBAt none t with
                | some (y, m, d) => .litDate y m d
                | none =>
                  match scanFrom slashBAt none t with
                  | some (d, m, y) =>
                    .litDate (if y < 100 then y + 2000 else y) m d
                  | none => ncMonthFirst t

/-- Substitute "now" into a textual outcome.  `Except.error ()` models the
uncaught `ValueError` of `datetime(year_val, month, day)` in the year-less
branches; every other branch returns normally. -/
def ndInterp (o : NDOut) (now : PyDateTime) : Except Unit (Option String) :=
  match o with
  | .unparsed => .ok none
  | .todayD => .ok (some (fmtYmd now))
  | .yesterdayD => .ok (some (fmtYmd (dtSubDays now 1)))
  | .daysAgo n => .ok (some (fmtYmd (dtSubDays now n)))
  | .hoursAgo n => .ok (some (fmtYmd (dtSubMicros now (n * 3600000000))))
  | .weeksAgo n => .ok (some (fmtYmd (dtSubDays now (7 * n))))
  | .litDate y m d => .ok (some (isoFmt y m d))
  | .yearlessDate m d =>
    if validYMD now.year m d then
      if dtGtB (mkMidnight now.year m d) now then
        .ok (some (isoFmt (now.year - 1) m d))
      else
        .ok (some (isoFmt now.year m d))
    else .error ()

/-- `normalize_date(date_str)` of src/utils.py, with the current instant made
explicit.  `.ok none` is the "unparsed" result; `.error ()` an uncaught
`ValueError`. -/
def normalize_date (date_str : String) (now : PyDateTime) : Except Unit (Option String) :=
  ndInterp (normClassify date_str) now

/-! ## `parse_date` (src/HIFI_search.py) -/

/-- ISO stage of `parse_date`: pattern match then `datetime` construction,
falling through (via `none`) on `ValueError`. -/
def pdISO (rc : List Char) : Option PyDateTime :=
  match scanFrom isoNBAt none rc with
  | none => none
  | some (y, m, d) => mkDT y m d

/-- Month-first stage of `parse_date` (case-sensitive pattern on the raw
string; group lowered before the dictionary lookups). -/
def pdMonthFirst (rc : List Char) : Option PyDateTime :=
  match scanFrom mfpAt none rc with
  | none => none
  | some (mon, day, year) =>
    match pdMonth (mon.map lowerC) with
    | none => none
    | some m => mkDT year m day

/-- Day-first stage of `parse_date`.  With no year group the source builds
`datetime(now.year, month, day)` for the future test and possibly
`datetime(now.year - 1, month, day)`; a `ValueError` in either construction
falls through to the next stage. -/
def pdDayFirst (lc : List Char) (now : PyDateTime) : Option PyDateTime :=
  match scanFrom dfpAt none lc with
  | none => none
  | some (day, mon, yOpt) =>
    match pdMonth (mon.take 3) with
    | none => none
    | some m =>
      match yOpt with
      | some y => mkDT y m day
      | none =>
        match mkDT now.year m day with
        | none => none
        | some dt =>
          if dtGtB dt now then mkDT (now.year - 1) m day else some dt

/-- Slash stage of `parse_date`: two-digit years get 2000 added before the
`datetime` construction. -/
def pdSlash (rc : List Char) : Option PyDateTime :=
  match scanFrom slashNBAt none rc with
  | none => none
  | some (d, m, y) => mkDT (if y < 100 then y + 2000 else y) m d

/-- `parse_date(date_str)` of src/HIFI_search.py with the current instant made
explicit; `none` is the unparsed result (the function never raises: every
`datetime` construction is guarded by an `except ValueError`). -/
def parse_date (date_str : String) (now : PyDateTime) : Option PyDateTime :=
  if date_str = "" then none
  else
    let s := pyStrip date_str
    let lc := (pyLower s).data
    let rc := s.data
    if containsSub ['j','u','s','t',' ','n','o','w'] lc || containsSub ['n','u'] lc then
      some now
    else if containsSub ['i','d','a','g'] lc || containsSub ['t','o','d','a','y'] lc then
      some (midnightOf now)
    else if containsSub ['i','g','å','r'] lc || containsSub ['y','e','s','t','e','r','d','a','y'] lc then
      some (midnightOf (dtSubDays now 1))
    else
      match findAgo ['d','a','y'] lc with
      | some n => some (midnightOf (dtSubDays now n))
      | none =>
        match findAgo ['h','o','u','r'] lc with
        | some n => some (dtSubMicros now (n * 3600000000))
        | none =>
          match findAgo ['w','e','e','k'] lc with
          | some n => some (midnightOf (dtSubDays now (7 * n)))
          | none =>
            match pdISO rc with
            | some dt => some dt
            | none =>
              match pdMonthFirst rc with
              | some dt => some dt
              | none =>
                match pdDayFirst lc now with
                | some dt => some dt
                | none => pdSlash rc

/-! ## Listings and the orchestrator (src/base.py, src/HIFI_search.py) -/

/-- `ListingResult` of src/base.py.  Prices (Python `Optional[float]`) are
modelled as integers; `raw_data` as a string-valued association list, which is
all the core ever reads from it. -/
structure Listing where
  title : String
  description : Option String
  price : Option Int
  url : String
  image_url : Option String
  posted_date : Option String
  location : Option String
  raw_data : List (String × String)
deriving DecidableEq

/-- Terminal behaviour of one provider's `search` coroutine for one query:
either a normal return or a raised exception (kind and message). -/
inductive Outcome where
  | ok (rs : List Listing)
  | fault (kind msg : String)
deriving DecidableEq

/-- One enabled provider in a dispatch: its name, how long its
`_search_scraper` task takes to reach a terminal state (in the time unit of
`asyncio.wait_for`), and its terminal behaviour. -/
structure ProviderRun where
  name : String
  duration : Nat
  outcome : Outcome
deriving DecidableEq

/-- Events on the diagnostic channel (stderr prints of the source). -/
inductive Diag where
  | emptyQuery
  | timeoutWarn (provider : String)
  | provErr (provider kind msg : String)
deriving DecidableEq

def Diag.providerOf : Diag → Option String
  | .emptyQuery => none
  | .timeoutWarn p => some p
  | .provErr p _ _ => some p

/-- The per-provider timeout of `asyncio.wait_for(task, timeout=60.0)`. -/
def timeoutBudget : Nat := 60

/-- The sequence recorded in `results[name]`: the provider's own listings on a
timely normal return, `[]` when the task exceeds the timeout (the
`TimeoutError` handler) or raised (`_search_scraper`'s handler returns `[]`). -/
def runEntry (r : ProviderRun) : List Listing :=
  if r.duration > timeoutBudget then []
  else
    match r.outcome with
    | .ok rs => rs
    | .fault _ _ => []

/-- The diagnostics a provider contributes: one timeout warning, or one error
report carrying the provider name, the exception type name and its message. -/
def runDiags (r : ProviderRun) : List Diag :=
  if r.duration > timeoutBudget then [Diag.timeoutWarn r.name]
  else
    match r.outcome with
    | .ok _ => []
    | .fault k m => [Diag.provErr r.name k m]

/-- `AudioSearch.search_all`: the result mapping (as an ordered association
list, one entry per enabled scraper) plus the emitted diagnostics.  An empty
or whitespace-only query short-circuits with a single warning and no provider
entries. -/
def search_all (query : String) (runs : List ProviderRun) :
    List (String × List Listing) × List Diag :=
  if query = "" ∨ pyStrip query = "" then ([], [Diag.emptyQuery])
  else (runs.map (fun r => (r.name, runEntry r)), (runs.map runDiags).flatten)

/-! ## `filter_by_days` (src/HIFI_search.py) -/

/-- The per-listing retention test inside `filter_by_days` for a given
cutoff. -/
def keepListing (l : Listing) (cutoff now : PyDateTime) : Bool :=
  match l.posted_date with
  | none => true
  | some s =>
    if s = "" then true
    else
      match parse_date s now with
      | none => true
      | some d => dtLeB cutoff d

/-- `filter_by_days(results, days_back)`: identity for `days_back ≤ 0`,
otherwise each provider's bucket is filtered against
`cutoff = now - timedelta(days=days_back)`. -/
def filter_by_days (results : List (String × List Listing)) (days_back : Int)
    (now : PyDateTime) : List (String × List Listing) :=
  if days_back ≤ 0 then results
  else
    let cutoff := dtSubDays now days_back.toNat
    results.map (fun p => (p.1, p.2.filter (fun l => keepListing l cutoff now)))

/-! ## The date sort key of `format_results` (src/HIFI_search.py) -/

/-- The primary date key: a finite value or the `float('inf')` placed on
undated listings. -/
inductive DKey where
  | fin (v : Int)
  | inf
deriving DecidableEq

def dkLt : DKey → DKey → Prop
  | .fin a, .fin b => a < b
  | .fin _, .inf => True
  | .inf, _ => False

instance : DecidablePred fun p : DKey × DKey => dkLt p.1 p.2 := by
  rintro ⟨a | a, b | b⟩ <;> simp only [dkLt] <;> infer_instance

/-- `parse_date(listing.posted_date) if listing.posted_date else None`. -/
def parsedDateOf (l : Listing) (now : PyDateTime) : Option PyDateTime :=
  match l.posted_date with
  | none => none
  | some s => if s = "" then none else parse_date s now

/-- The tie-break name: the scraper's own name, except that a HiFiShark
listing with a truthy `raw_data['source_site']` uses that site name. -/
def displaySourceName (scraperName : String) (l : Listing) : String :=
  if scraperName = "HiFiShark" ∧ l.raw_data ≠ [] then
    match l.raw_data.lookup "source_site" with
    | some s => if s = "" then scraperName else s
    | none => scraperName
  else scraperName

/-- `get_sort_key` of `format_results` in the `sort_by == 'date'` branch:
`(0, -timestamp or inf, lowercased display source name)`. -/
def get_sort_key_date (scraperName : String) (l : Listing) (now : PyDateTime) :
    Nat × DKey × String :=
  let dateKey :=
    match parsedDateOf l now with
    | some d => DKey.fin (-(dtMicros d))
    | none => DKey.inf
  (0, dateKey, pyLower (displaySourceName scraperName l))

/-- Python's `<` on the `(bucket, date_key, source)` tuples returned by
`get_sort_key`. -/
def sortKeyLt (k1 k2 : Nat × DKey × String) : Prop :=
  k1.1 < k2.1 ∨ (k1.1 = k2.1 ∧ (dkLt k1.2.1 k2.2.1 ∨ (k1.2.1 = k2.2.1 ∧ k1.2.2 < k2.2.2)))

/-! ## `expand_search_term` (src/search_utils.py) -/

/-- The `SYNONYMS` table. -/
def SYNONYMS : List (String × List String) :=
  [("amp", ["amplifier", "förstärkare"]),
   ("amplifier", ["amp", "förstärkare"]),
   ("förstärkare", ["amp", "amplifier"]),
   ("turntable", ["record player", "skivspelare"]),
   ("record", ["record player", "vinyl"]),
   ("hifi", ["audio", "audio equipment"])]

/-- `expand_search_term(term)`: the original term, then each synonym of the
normalised term that is not already present. -/
def expand_search_term (term : String) : List String :=
  let normalized := pyLower (pyStrip term)
  let variants := [term]
  if normalized = "" then variants
  else
    let synonyms := (SYNONYMS.lookup normalized).getD []
    synonyms.foldl (fun vs syn => if syn ∈ vs then vs else vs ++ [syn]) variants

/-! ## The aggregation loop of `main` (src/HIFI_search.py, lines 641-652) -/

/-- `listing.url or f"{listing.title}|{listing.price}|{listing.location}"`. -/
def showOptPrice : Option Int → String
  | none => "None"
  | some n => toString n

def showOptStr : Option String → String
  | none => "None"
  | some s => s

def sigOf (l : Listing) : String :=
  if l.url ≠ "" then l.url
  else l.title ++ "|" ++ showOptPrice l.price ++ "|" ++ showOptStr l.location

/-- The state of one aggregation session: `aggregated_results` (an insertion-
ordered association list, like a Python dict) and `seen_signatures`. -/
structure AggState where
  aggregated : List (String × List Listing)
  seen : List String
deriving DecidableEq

def initAgg : AggState := ⟨[], []⟩

/-- `aggregated_results.setdefault(site, [])`. -/
def ensureSite (agg : List (String × List Listing)) (site : String) :
    List (String × List Listing) :=
  if site ∈ agg.map Prod.fst then agg else agg ++ [(site, [])]

/-- `bucket.append(listing)` on the bucket of `site` (present by
construction). -/
def appendToSite : List (String × List Listing) → String → Listing →
    List (String × List Listing)
  | [], _, _ => []
  | (n, ls) :: rest, site, l =>
    if n = site then (n, ls ++ [l]) :: rest
    else (n, ls) :: appendToSite rest site l

/-- The body of the innermost loop: skip a listing whose signature was seen,
otherwise record the signature and append the listing. -/
def stepListing (st : AggState) (site : String) (l : Listing) : AggState :=
  if sigOf l ∈ st.seen then st
  else ⟨appendToSite st.aggregated site l, st.seen ++ [sigOf l]⟩

/-- Processing one `(site, listings)` pair of a `search_all` result. -/
def stepSite (st : AggState) (site : String) (ls : List Listing) : AggState :=
  ls.foldl (fun s l => stepListing s site l) ⟨ensureSite st.aggregated site, st.seen⟩

/-- Processing one variant's whole result mapping. -/
def processResults (st : AggState) (res : List (String × List Listing)) : AggState :=
  res.foldl (fun s p => stepSite s p.1 p.2) st

/-- The aggregation session over a list of query variants, where `f` gives
the (fixed) per-variant provider results. -/
def runAgg (variants : List String) (f : String → List (String × List Listing))
    (st : AggState) : AggState :=
  variants.foldl (fun s v => processResults s (f v)) st

/-- All signatures retained in the aggregate, in bucket order. -/
def allSigs (st : AggState) : List String :=
  (st.aggregated.map (fun p => p.2.map sigOf)).flatten

/-! ## Claim theorems -/

/-- C3: the date normalizer's literal cases: `normalize("Idag")` is today's
date, `normalize("2 days ago")` is today minus 2 days, `normalize("2024-10-15")`
is exactly `2024-10-15`, `normalize("Oct 26, 2025")` is `2025-10-26`, and
`normalize("not a date")` is the distinct unparsed result. -/
theorem normalize_date_literal_cases (now : PyDateTime) :
    normalize_date "Idag" now = .ok (some (fmtYmd now))
  ∧ normalize_date "2 days ago" now = .ok (some (fmtYmd (dtSubDays now 2)))
  ∧ normalize_date "2024-10-15" now = .ok (some "2024-10-15")
  ∧ normalize_date "Oct 26, 2025" now = .ok (some "2025-10-26")
  ∧ normalize_date "not a date" now = .ok none := by
  refine ⟨?_, ?_, ?_, ?_, ?_⟩
  · rw [normalize_date, show normClassify "Idag" = NDOut.todayD from by decide]
    rfl
  · rw [normalize_date, show normClassify "2 days ago" = NDOut.daysAgo 2 from by decide]
    rfl
  · rw [normalize_date,
      show normClassify "2024-10-15" = NDOut.litDate 2024 10 15 from by decide]
    rfl
  · rw [normalize_date,
      show normClassify "Oct 26, 2025" = NDOut.litDate 2025 10 26 from by decide]
    rfl
  · rw [normalize_date, show normClassify "not a date" = NDOut.unparsed from by decide]
    rfl

/-- C4: on malformed numeric dates the normalizer does NOT fail gracefully to
unparsed: for the month-13 ISO-shaped input `"2024-13-15"` it returns the
invalid date string `"2024-13-15"` unchanged, and for the impossible day
`"30 feb"` it raises an uncaught `ValueError` — contradicting the claim. -/
theorem normalize_date_malformed_behavior (now : PyDateTime) :
    normalize_date "2024-13-15" now = .ok (some "2024-13-15")
  ∧ normalize_date "30 feb" now = .error () := by
  constructor
  · rw [normalize_date,
      show normClassify "2024-13-15" = NDOut.litDate 2024 13 15 from by decide]
    rfl
  · rw [normalize_date, show normClassify "30 feb" = NDOut.yearlessDate 2 30 from by decide]
    have h : validYMD now.year 2 30 = false := by
      unfold validYMD daysInMonth
      cases isLeap now.year <;> simp
    simp [ndInterp, h]

/-- C5: the day-first textual rule fails in the normalizer: for the day-first
input `"26 okt 2025"` the month-first pattern misfires (month `okt`, day `20`,
two-digit year `25` with no century adjustment) and the result is
`0025-10-20` instead of the exact date 2025-10-26 the claim requires. -/
theorem normalize_date_day_first_textual_bug (now : PyDateTime) :
    normalize_date "26 okt 2025" now = .ok (some "0025-10-20")
  ∧ .ok (some "0025-10-20") ≠ (.ok (some "2025-10-26") : Except Unit (Option String)) := by
  constructor
  · rw [normalize_date,
      show normClassify "26 okt 2025" = NDOut.litDate 25 10 20 from by decide]
    rfl
  · simp only [ne_eq, Except.ok.injEq, Option.some.injEq]
    decide

/-- C10: an empty or whitespace-only query makes `search_all` return an empty
mapping — no provider entries at all, whatever providers are enabled — with a
single warning. -/
theorem search_all_empty_query (q : String) (runs : List ProviderRun)
    (h : q = "" ∨ pyStrip q = "") :
    search_all q runs = ([], [Diag.emptyQuery]) := by
  rw [search_all, if_pos h]

/-- Witness for C10 at the whitespace-only query `"   "` and a non-trivial
provider list. -/
theorem search_all_empty_query_witness :
    search_all "   " [⟨"Blocket", 5, Outcome.ok []⟩] = ([], [Diag.emptyQuery]) :=
  search_all_empty_query "   " [⟨"Blocket", 5, Outcome.ok []⟩] (Or.inr (by decide))

/-! ### Lemmas on the synonym-appending fold of `expand_search_term` -/

/-- One step of the synonym loop: append unless already present. -/
def insVariant (vs : List String) (syn : String) : List String :=
  if syn ∈ vs then vs else vs ++ [syn]

theorem expand_foldl_eq_insVariant (syns vs : List String) :
    syns.foldl (fun vs syn => if syn ∈ vs then vs else vs ++ [syn]) vs
      = syns.foldl insVariant vs := rfl

/-- The fold only appends: the result is the start list followed by a
duplicate-free subsequence of the synonyms, none of which was already
present. -/
theorem foldl_insVariant_split (syns : List String) :
    ∀ vs : List String, ∃ e, syns.foldl insVariant vs = vs ++ e
      ∧ e.Sublist syns ∧ e.Nodup ∧ ∀ x ∈ e, x ∉ vs := by
  induction syns with
  | nil => exact fun vs => ⟨[], by simp⟩
  | cons s rest ih =>
    intro vs
    by_cases hs : s ∈ vs
    · obtain ⟨e, he, hsub, hnd, hnotin⟩ := ih vs
      exact ⟨e, by simpa [List.foldl_cons, insVariant, hs] using he,
        hsub.cons s, hnd, hnotin⟩
    · obtain ⟨e, he, hsub, hnd, hnotin⟩ := ih (vs ++ [s])
      refine ⟨s :: e, ?_, hsub.cons₂ s, ?_, ?_⟩
      · simpa [List.foldl_cons, insVariant, hs, List.append_assoc] using he
      · exact List.nodup_cons.mpr ⟨fun hx => (hnotin s hx) (by simp), hnd⟩
      · intro x hx
        rcases List.mem_cons.mp hx with h | h
        · exact h ▸ hs
        · exact fun hxv => (hnotin x h) (List.mem_append_left _ hxv)

/-- C8: query expansion is a pure function returning the original term first,
followed by that term's synonyms in first-seen table order with no
duplicates; in particular `expand("amp")` is exactly
`["amp", "amplifier", "förstärkare"]`. -/
theorem expand_search_term_spec :
    (∀ t : String,
        (expand_search_term t).head? = some t
      ∧ (expand_search_term t).Nodup
      ∧ (expand_search_term t).tail.Sublist ((SYNONYMS.lookup (pyLower (pyStrip t))).getD []))
  ∧ expand_search_term "amp" = ["amp", "amplifier", "förstärkare"] := by
  constructor
  · intro t
    unfold expand_search_term
    by_cases h : pyLower (pyStrip t) = ""
    · simp [h]
    · obtain ⟨e, he, hsub, hnd, hnotin⟩ :=
        foldl_insVariant_split ((SYNONYMS.lookup (pyLower (pyStrip t))).getD []) [t]
      rw [if_neg h, expand_foldl_eq_insVariant, he]
      refine ⟨by simp, ?_, by simpa using hsub⟩
      refine List.nodup_cons.mpr ⟨?_, hnd⟩
      intro hmem
      exact (hnotin t (by simpa using hmem)) (by simp)
  · decide

/-! ### C2: characterization of the recency filter -/

/-- The retention condition as the spec words it: a listing is retained iff
it has no `postedDate`, or its `postedDate` fails to parse, or its parsed
date is on or after the cutoff (inclusive). -/
def retainedSpec (l : Listing) (cutoff now : PyDateTime) : Prop :=
  l.posted_date = none
  ∨ (∃ s, l.posted_date = some s ∧ parse_date s now = none)
  ∨ (∃ s d, l.posted_date = some s ∧ parse_date s now = some d
        ∧ dtCode cutoff ≤ dtCode d)

/-- The filter's own boolean test agrees with the spec-side retention
condition (the source short-circuits the empty string before parsing, but an
empty string does not parse anyway). -/
theorem keepListing_iff_retainedSpec (l : Listing) (cutoff now : PyDateTime) :
    keepListing l cutoff now = true ↔ retainedSpec l cutoff now := by
  unfold keepListing retainedSpec
  cases hp : l.posted_date with
  | none => simp
  | some s =>
    simp only [hp, Option.some.injEq, reduceCtorEq, false_or]
    by_cases hs : s = ""
    · subst hs
      simp [show parse_date "" now = none from rfl]
    · rw [if_neg hs]
      cases hd : parse_date s now with
      | none => simp [hd]
      | some d =>
        constructor
        · intro hb
          exact Or.inr ⟨s, d, rfl, hd, Nat.le_of_ble_eq_true hb⟩
        · intro h
          rcases h with ⟨s2, hs2, hpd⟩ | ⟨s2, d2, hs2, hd2, hle⟩
          · subst hs2
            rw [hd] at hpd
            exact absurd hpd (by simp)
          · subst hs2
            rw [hd] at hd2
            obtain rfl : d = d2 := Option.some.inj hd2
            exact Nat.ble_eq_true_of_le hle

/-- C2: `filter_by_days` retains a listing exactly when it has no posted
date, or the date fails to parse, or the parsed date is on or after
`now - N` days (inclusive boundary, the `≥` in `retainedSpec`); for `N ≤ 0`
it is the identity.  Provider keys and their order are preserved. -/
theorem filter_by_days_characterization (results : List (String × List Listing))
    (N : Int) (now : PyDateTime) :
    (N ≤ 0 → filter_by_days results N now = results)
  ∧ (0 < N →
      List.Forall₂ (fun p q : String × List Listing =>
          p.1 = q.1
          ∧ ∀ l, l ∈ q.2 ↔ (l ∈ p.2 ∧ retainedSpec l (dtSubDays now N.toNat) now))
        results (filter_by_days results N now)) := by
  constructor
  · intro hN
    rw [filter_by_days, if_pos hN]
  · intro hN
    rw [filter_by_days, if_neg (by omega)]
    rw [List.forall₂_map_right_iff]
    refine List.forall₂_same.mpr ?_
    intro p _
    exact ⟨rfl, fun l => by rw [List.mem_filter, keepListing_iff_retainedSpec]⟩

/-- Concrete data for the C2 witness. -/
def wNow : PyDateTime := ⟨2025, 10, 12, 14, 30, 5, 123456⟩

def wL1 : Listing :=
  ⟨"Hegel H90", none, some 9000, "https://ex.se/1", none, some "2 days ago", some "Uppsala", []⟩

/-- Witness for C2: both hypotheses discharged at concrete inputs (`N = 0`
gives the identity; `N = 7` gives the per-bucket membership
characterization). -/
theorem filter_by_days_characterization_witness :
    filter_by_days [("Blocket", [wL1])] 0 wNow = [("Blocket", [wL1])]
  ∧ List.Forall₂ (fun p q : String × List Listing =>
        p.1 = q.1
        ∧ ∀ l, l ∈ q.2 ↔ (l ∈ p.2 ∧ retainedSpec l (dtSubDays wNow (7 : Int).toNat) wNow))
      [("Blocket", [wL1])] (filter_by_days [("Blocket", [wL1])] 7 wNow) :=
  ⟨(filter_by_days_characterization [("Blocket", [wL1])] 0 wNow).1 (by decide),
   (filter_by_days_characterization [("Blocket", [wL1])] 7 wNow).2 (by decide)⟩

/-- C7: under date sorting the primary key is the negated parsed timestamp
(newest first), missing or unparseable dates get the infinite key and sort
after every dated listing, and ties are broken by the lowercased display
source name — the provider's own name, except that a HiFiShark listing
exposing a true-origin `source_site` in its raw data uses that name. -/
theorem get_sort_key_date_spec :
    (∀ (now : PyDateTime) (n : String) (l : Listing),
        (get_sort_key_date n l now).1 = 0
      ∧ (∀ d, parsedDateOf l now = some d →
            (get_sort_key_date n l now).2.1 = DKey.fin (-(dtMicros d)))
      ∧ (parsedDateOf l now = none → (get_sort_key_date n l now).2.1 = DKey.inf)
      ∧ (n ≠ "HiFiShark" → (get_sort_key_date n l now).2.2 = pyLower n)
      ∧ (∀ s, l.raw_data.lookup "source_site" = some s → s ≠ "" → l.raw_data ≠ [] →
            (get_sort_key_date "HiFiShark" l now).2.2 = pyLower s))
  ∧ (∀ (v : Int) (s1 s2 : String), sortKeyLt (0, DKey.fin v, s1) (0, DKey.inf, s2))
  ∧ (∀ (b : Nat) (v : Int) (s1 s2 : String),
        sortKeyLt (b, DKey.fin v, s1) (b, DKey.fin v, s2) ↔ s1 < s2) := by
  refine ⟨fun now n l => ⟨rfl, ?_, ?_, ?_, ?_⟩, ?_, ?_⟩
  · intro d hd
    simp [get_sort_key_date, hd]
  · intro hd
    simp [get_sort_key_date, hd]
  · intro hn
    simp [get_sort_key_date, displaySourceName, hn]
  · intro s hs hse hraw
    simp [get_sort_key_date, displaySourceName, hraw, hs, hse]
  · intro v s1 s2
    exact Or.inr ⟨rfl, Or.inl trivial⟩
  · intro b v s1 s2
    simp [sortKeyLt, dkLt]

def wL2 : Listing :=
  ⟨"Yamaha R-N800A", none, none, "", none, none, some "Stockholm", []⟩

def wL3 : Listing :=
  ⟨"B&W 702", none, some 15000, "https://ex.se/3", none, some "Idag", none,
   [("source_site", "US Audio Mart")]⟩

/-- Witness for C7: every implicative conjunct discharged at concrete
inputs. -/
theorem get_sort_key_date_spec_witness :
    (get_sort_key_date "Blocket" wL1 wNow).2.1
        = DKey.fin (-(dtMicros ⟨2025, 10, 10, 0, 0, 0, 0⟩))
  ∧ (get_sort_key_date "Tradera" wL2 wNow).2.1 = DKey.inf
  ∧ (get_sort_key_date "Blocket" wL1 wNow).2.2 = pyLower "Blocket"
  ∧ (get_sort_key_date "HiFiShark" wL3 wNow).2.2 = pyLower "US Audio Mart"
  ∧ sortKeyLt (0, DKey.fin 5, "a") (0, DKey.inf, "b")
  ∧ (sortKeyLt (0, DKey.fin 5, "a") (0, DKey.fin 5, "b") ↔ ("a" : String) < "b") :=
  ⟨(get_sort_key_date_spec.1 wNow "Blocket" wL1).2.1 ⟨2025, 10, 10, 0, 0, 0, 0⟩ (by decide),
   (get_sort_key_date_spec.1 wNow "Tradera" wL2).2.2.1 (by decide),
   (get_sort_key_date_spec.1 wNow "Blocket" wL1).2.2.2.1 (by decide),
   (get_sort_key_date_spec.1 wNow "HiFiShark" wL3).2.2.2.2 "US Audio Mart"
     (by decide) (by decide) (by decide),
   get_sort_key_date_spec.2.1 5 "a" "b",
   get_sort_key_date_spec.2.2 0 5 "a" "b"⟩

/-! ### C1: helper lemmas about the per-provider entries and diagnostics -/

theorem lookup_runEntry (runs : List ProviderRun) (r : ProviderRun)
    (hr : r ∈ runs) (hnd : (runs.map ProviderRun.name).Nodup) :
    (runs.map (fun x => (x.name, runEntry x))).lookup r.name = some (runEntry r) := by
  induction runs with
  | nil => cases hr
  | cons h t ih =>
    simp only [List.map_cons, List.nodup_cons] at hnd
    rcases List.mem_cons.mp hr with rfl | hrt
    · simp [List.lookup]
    · have hne : (r.name == h.name) = false := by
        refine beq_false_of_ne ?_
        intro he
        exact hnd.1 (he ▸ List.mem_map_of_mem ProviderRun.name hrt)
      simp only [List.map_cons, List.lookup, hne]
      exact ih hrt hnd.2

theorem runDiags_provider (r : ProviderRun) (d : Diag) (hd : d ∈ runDiags r) :
    d.providerOf = some r.name := by
  unfold runDiags at hd
  by_cases h : r.duration > timeoutBudget
  · rw [if_pos h] at hd
    simp only [List.mem_singleton] at hd
    subst hd
    rfl
  · rw [if_neg h] at hd
    cases ho : r.outcome with
    | ok rs =>
      rw [ho] at hd
      cases hd
    | fault k m =>
      rw [ho] at hd
      simp only [List.mem_singleton] at hd
      subst hd
      rfl

theorem count_flatten_no_provider (runs : List ProviderRun) (d : Diag) (p : String)
    (hdp : d.providerOf = some p) (hp : p ∉ runs.map ProviderRun.name) :
    ((runs.map runDiags).flatten.count d) = 0 := by
  induction runs with
  | nil => rfl
  | cons h t ih =>
    simp only [List.map_cons, List.flatten_cons, List.count_append]
    have hd : d ∉ runDiags h := by
      intro hmem
      have hpr := runDiags_provider h d hmem
      rw [hdp] at hpr
      exact hp (by
        simp only [List.map_cons, List.mem_cons]
        exact Or.inl (Option.some.inj hpr))
    rw [List.count_eq_zero.mpr hd, ih (fun hx => hp (by
      simp only [List.map_cons, List.mem_cons]
      exact Or.inr hx))]

theorem count_flatten_unique (runs : List ProviderRun) (r : ProviderRun)
    (hr : r ∈ runs) (hnd : (runs.map ProviderRun.name).Nodup) (d : Diag)
    (hd : runDiags r = [d]) (hdp : d.providerOf = some r.name) :
    ((runs.map runDiags).flatten.count d) = 1 := by
  induction runs with
  | nil => cases hr
  | cons h t ih =>
    simp only [List.map_cons, List.nodup_cons] at hnd
    simp only [List.map_cons, List.flatten_cons, List.count_append]
    rcases List.mem_cons.mp hr with rfl | hrt
    · rw [hd, count_flatten_no_provider t d r.name hdp hnd.1]
      simp
    · have hdh : d ∉ runDiags h := by
        intro hmem
        have hpr := runDiags_provider h d hmem
        rw [hdp] at hpr
        have : r.name ∈ t.map ProviderRun.name := List.mem_map_of_mem ProviderRun.name hrt
        rw [Option.some.inj hpr] at this
        exact hnd.1 this
      rw [List.count_eq_zero.mpr hdh, ih hrt hnd.2]

/-- C1: for a non-empty query the dispatch returns one entry per enabled
provider in order and never aborts; a provider that raises or exceeds the
60-unit timeout contributes exactly an empty sequence plus one diagnostic
naming it (with the fault's kind and message on an exception), and each
provider's entry is a function of that provider's run alone, so no failure
can remove, empty, or alter a sibling's entry. -/
theorem search_all_provider_isolation (q : String) (runs : List ProviderRun)
    (hq : pyStrip q ≠ "") :
    ((search_all q runs).1.map Prod.fst = runs.map ProviderRun.name)
  ∧ ((search_all q runs).1.length = runs.length)
  ∧ ((runs.map ProviderRun.name).Nodup →
      ∀ r ∈ runs,
        (∀ k m, r.duration ≤ timeoutBudget → r.outcome = .fault k m →
            ((search_all q runs).1.lookup r.name = some []
              ∧ (search_all q runs).2.count (Diag.provErr r.name k m) = 1))
      ∧ (r.duration > timeoutBudget →
            ((search_all q runs).1.lookup r.name = some []
              ∧ (search_all q runs).2.count (Diag.timeoutWarn r.name) = 1)))
  ∧ (∀ (runs2 : List ProviderRun) (i : Nat),
        runs[i]? = runs2[i]? →
        (search_all q runs).1[i]? = (search_all q runs2).1[i]?) := by
  have hcond : ¬(q = "" ∨ pyStrip q = "") := by
    rintro (rfl | h)
    · exact hq (by decide)
    · exact hq h
  refine ⟨?_, ?_, ?_, ?_⟩
  · simp [search_all, hcond]
  · simp [search_all, hcond]
  · intro hnd r hr
    constructor
    · intro k m hdur hf
      have hentry : runEntry r = [] := by
        unfold runEntry
        rw [if_neg (by omega), hf]
      have hdiag : runDiags r = [Diag.provErr r.name k m] := by
        unfold runDiags
        rw [if_neg (by omega), hf]
      constructor
      · rw [search_all, if_neg hcond]
        rw [lookup_runEntry runs r hr hnd, hentry]
      · rw [search_all, if_neg hcond]
        exact count_flatten_unique runs r hr hnd _ hdiag rfl
    · intro hdur
      have hentry : runEntry r = [] := by
        unfold runEntry
        rw [if_pos hdur]
      have hdiag : runDiags r = [Diag.timeoutWarn r.name] := by
        unfold runDiags
        rw [if_pos hdur]
      constructor
      · rw [search_all, if_neg hcond]
        rw [lookup_runEntry runs r hr hnd, hentry]
      · rw [search_all, if_neg hcond]
        exact count_flatten_unique runs r hr hnd _ hdiag rfl
  · intro runs2 i hi
    have hcond2 : ¬(q = "" ∨ pyStrip q = "") := hcond
    rw [search_all, if_neg hcond, search_all, if_neg hcond2]
    simp only [List.getElem?_map, hi]

def wRuns : List ProviderRun :=
  [⟨"Blocket", 5, .ok [wL1]⟩, ⟨"Tradera", 70, .ok [wL2]⟩,
   ⟨"Facebook Marketplace", 10, .fault "ValueError" "boom"⟩]

def wRuns2 : List ProviderRun :=
  [⟨"Blocket", 5, .ok [wL1]⟩, ⟨"Tradera", 3, .fault "OSError" "offline"⟩]

/-- Witness for C1 at a concrete dispatch mixing a success, a timeout and a
fault. -/
theorem search_all_provider_isolation_witness :
    ((search_all "amp" wRuns).1.map Prod.fst = wRuns.map ProviderRun.name)
  ∧ ((search_all "amp" wRuns).1.lookup "Facebook Marketplace" = some []
      ∧ (search_all "amp" wRuns).2.count
          (Diag.provErr "Facebook Marketplace" "ValueError" "boom") = 1)
  ∧ ((search_all "amp" wRuns).1.lookup "Tradera" = some []
      ∧ (search_all "amp" wRuns).2.count (Diag.timeoutWarn "Tradera") = 1)
  ∧ (search_all "amp" wRuns).1[0]? = (search_all "amp" wRuns2).1[0]? :=
  ⟨(search_all_provider_isolation "amp" wRuns (by decide)).1,
   ((search_all_provider_isolation "amp" wRuns (by decide)).2.2.1 (by decide)
       ⟨"Facebook Marketplace", 10, .fault "ValueError" "boom"⟩ (by decide)).1
     "ValueError" "boom" (by decide) rfl,
   ((search_all_provider_isolation "amp" wRuns (by decide)).2.2.1 (by decide)
       ⟨"Tradera", 70, .ok [wL2]⟩ (by decide)).2 (by decide),
   (search_all_provider_isolation "amp" wRuns (by decide)).2.2.2 wRuns2 0 rfl⟩

/-! ### Lemmas on the aggregation loop -/

theorem appendToSite_keys (agg : List (String × List Listing)) (site : String) (l : Listing) :
    (appendToSite agg site l).map Prod.fst = agg.map Prod.fst := by
  induction agg with
  | nil => rfl
  | cons p t ih =>
    obtain ⟨n, ls⟩ := p
    simp only [appendToSite]
    by_cases hn : n = site
    · rw [if_pos hn]
      simp
    · rw [if_neg hn]
      simp only [List.map_cons, ih]

theorem stepListing_keys (st : AggState) (site : String) (l : Listing) :
    (stepListing st site l).aggregated.map Prod.fst = st.aggregated.map Prod.fst := by
  unfold stepListing
  by_cases hs : sigOf l ∈ st.seen
  · rw [if_pos hs]
  · rw [if_neg hs]
    exact appendToSite_keys st.aggregated site l

theorem stepListing_seen_mono (st : AggState) (site : String) (l : Listing) :
    ∀ x ∈ st.seen, x ∈ (stepListing st site l).seen := by
  intro x hx
  unfold stepListing
  by_cases hs : sigOf l ∈ st.seen
  · rw [if_pos hs]
    exact hx
  · rw [if_neg hs]
    exact List.mem_append_left _ hx

theorem foldl_stepListing_keys (ls : List Listing) (site : String) :
    ∀ st : AggState,
      (ls.foldl (fun s l => stepListing s site l) st).aggregated.map Prod.fst
        = st.aggregated.map Prod.fst := by
  induction ls with
  | nil => intro st; rfl
  | cons a rest ih =>
    intro st
    rw [List.foldl_cons, ih, stepListing_keys]

theorem foldl_stepListing_seen (ls : List Listing) (site : String) :
    ∀ st : AggState, ∀ x ∈ st.seen,
      x ∈ (ls.foldl (fun s l => stepListing s site l) st).seen := by
  induction ls with
  | nil => intro st x hx; exact hx
  | cons a rest ih =>
    intro st x hx
    exact ih _ x (stepListing_seen_mono _ _ _ x hx)

theorem foldl_stepListing_sig (ls : List Listing) (site : String) :
    ∀ st : AggState, ∀ l ∈ ls,
      sigOf l ∈ (ls.foldl (fun s l => stepListing s site l) st).seen := by
  induction ls with
  | nil => intro st l hl; cases hl
  | cons a rest ih =>
    intro st l hl
    rcases List.mem_cons.mp hl with rfl | hrest
    · have h1 : sigOf l ∈ (stepListing st site l).seen := by
        unfold stepListing
        by_cases hs : sigOf l ∈ st.seen
        · rw [if_pos hs]
          exact hs
        · rw [if_neg hs]
          exact List.mem_append_right _ (by simp)
      exact foldl_stepListing_seen rest site _ _ h1
    · exact ih _ l hrest

theorem ensureSite_keys_mem (agg : List (String × List Listing)) (site : String) :
    site ∈ (ensureSite agg site).map Prod.fst := by
  unfold ensureSite
  by_cases h : site ∈ agg.map Prod.fst
  · rw [if_pos h]
    exact h
  · rw [if_neg h]
    simp

theorem ensureSite_keys_mono (agg : List (String × List Listing)) (site : String) :
    ∀ k ∈ agg.map Prod.fst, k ∈ (ensureSite agg site).map Prod.fst := by
  intro k hk
  unfold ensureSite
  by_cases h : site ∈ agg.map Prod.fst
  · rw [if_pos h]
    exact hk
  · rw [if_neg h]
    simp only [List.map_append, List.mem_append]
    exact Or.inl hk

theorem stepSite_covers (st : AggState) (site : String) (ls : List Listing) :
    site ∈ (stepSite st site ls).aggregated.map Prod.fst
  ∧ ∀ l ∈ ls, sigOf l ∈ (stepSite st site ls).seen := by
  constructor
  · unfold stepSite
    rw [foldl_stepListing_keys]
    exact ensureSite_keys_mem st.aggregated site
  · intro l hl
    exact foldl_stepListing_sig ls site _ l hl

theorem stepSite_keys_mono (st : AggState) (site : String) (ls : List Listing) :
    ∀ k ∈ st.aggregated.map Prod.fst, k ∈ (stepSite st site ls).aggregated.map Prod.fst := by
  intro k hk
  unfold stepSite
  rw [foldl_stepListing_keys]
  exact ensureSite_keys_mono st.aggregated site k hk

theorem stepSite_seen_mono (st : AggState) (site : String) (ls : List Listing) :
    ∀ x ∈ st.seen, x ∈ (stepSite st site ls).seen := by
  intro x hx
  unfold stepSite
  exact foldl_stepListing_seen ls site _ x hx

theorem processResults_keys_mono (res : List (String × List Listing)) :
    ∀ st : AggState, ∀ k ∈ st.aggregated.map Prod.fst,
      k ∈ (processResults st res).aggregated.map Prod.fst := by
  induction res with
  | nil => intro st k hk; exact hk
  | cons p t ih =>
    intro st k hk
    exact ih _ k (stepSite_keys_mono st p.1 p.2 k hk)

theorem processResults_seen_mono (res : List (String × List Listing)) :
    ∀ st : AggState, ∀ x ∈ st.seen, x ∈ (processResults st res).seen := by
  induction res with
  | nil => intro st x hx; exact hx
  | cons p t ih =>
    intro st x hx
    exact ih _ x (stepSite_seen_mono st p.1 p.2 x hx)

theorem processResults_covers (res : List (String × List Listing)) :
    ∀ st : AggState, ∀ p ∈ res,
      p.1 ∈ (processResults st res).aggregated.map Prod.fst
    ∧ ∀ l ∈ p.2, sigOf l ∈ (processResults st res).seen := by
  induction res with
  | nil => intro st p hp; cases hp
  | cons q t ih =>
    intro st p hp
    rcases List.mem_cons.mp hp with rfl | hpt
    · constructor
      · exact processResults_keys_mono t _ p.1 (stepSite_covers st p.1 p.2).1
      · intro l hl
        exact processResults_seen_mono t _ _ ((stepSite_covers st p.1 p.2).2 l hl)
    · exact ih _ p hpt

theorem runAgg_keys_mono (vs : List String) (f : String → List (String × List Listing)) :
    ∀ st : AggState, ∀ k ∈ st.aggregated.map Prod.fst,
      k ∈ (runAgg vs f st).aggregated.map Prod.fst := by
  induction vs with
  | nil => intro st k hk; exact hk
  | cons v t ih =>
    intro st k hk
    exact ih _ k (processResults_keys_mono (f v) st k hk)

theorem runAgg_seen_mono (vs : List String) (f : String → List (String × List Listing)) :
    ∀ st : AggState, ∀ x ∈ st.seen, x ∈ (runAgg vs f st).seen := by
  induction vs with
  | nil => intro st x hx; exact hx
  | cons v t ih =>
    intro st x hx
    exact ih _ x (processResults_seen_mono (f v) st x hx)

theorem runAgg_covers (vs : List String) (f : String → List (String × List Listing)) :
    ∀ st : AggState, ∀ v ∈ vs, ∀ p ∈ f v,
      p.1 ∈ (runAgg vs f st).aggregated.map Prod.fst
    ∧ ∀ l ∈ p.2, sigOf l ∈ (runAgg vs f st).seen := by
  induction vs with
  | nil => intro st v hv; cases hv
  | cons w t ih =>
    intro st v hv p hp
    rcases List.mem_cons.mp hv with rfl | hvt
    · constructor
      · exact runAgg_keys_mono t f _ p.1 (processResults_covers (f v) st p hp).1
      · intro l hl
        exact runAgg_seen_mono t f _ _ ((processResults_covers (f v) st p hp).2 l hl)
    · exact ih _ v hvt p hp

theorem stepListing_noop (st : AggState) (site : String) (l : Listing)
    (h : sigOf l ∈ st.seen) : stepListing st site l = st := by
  unfold stepListing
  rw [if_pos h]

theorem foldl_stepListing_noop (ls : List Listing) (site : String) :
    ∀ st : AggState, (∀ l ∈ ls, sigOf l ∈ st.seen) →
      ls.foldl (fun s l => stepListing s site l) st = st := by
  induction ls with
  | nil => intro st _; rfl
  | cons a rest ih =>
    intro st h
    rw [List.foldl_cons, stepListing_noop st site a (h a (by simp))]
    exact ih st (fun l hl => h l (List.mem_cons_of_mem a hl))

theorem ensureSite_noop (agg : List (String × List Listing)) (site : String)
    (h : site ∈ agg.map Prod.fst) : ensureSite agg site = agg := by
  unfold ensureSite
  rw [if_pos h]

theorem stepSite_noop (st : AggState) (site : String) (ls : List Listing)
    (hk : site ∈ st.aggregated.map Prod.fst)
    (hs : ∀ l ∈ ls, sigOf l ∈ st.seen) : stepSite st site ls = st := by
  unfold stepSite
  rw [ensureSite_noop st.aggregated site hk]
  exact foldl_stepListing_noop ls site st hs

theorem processResults_noop (res : List (String × List Listing)) (st : AggState)
    (h : ∀ p ∈ res, p.1 ∈ st.aggregated.map Prod.fst ∧ ∀ l ∈ p.2, sigOf l ∈ st.seen) :
    processResults st res = st := by
  induction res with
  | nil => rfl
  | cons p t ih =>
    unfold processResults
    rw [List.foldl_cons, stepSite_noop st p.1 p.2 (h p (by simp)).1 (h p (by simp)).2]
    exact ih (fun q hq => h q (List.mem_cons_of_mem p hq))

theorem runAgg_noop (vs : List String) (f : String → List (String × List Listing))
    (st : AggState)
    (h : ∀ v ∈ vs, ∀ p ∈ f v,
        p.1 ∈ st.aggregated.map Prod.fst ∧ ∀ l ∈ p.2, sigOf l ∈ st.seen) :
    runAgg vs f st = st := by
  induction vs with
  | nil => rfl
  | cons v t ih =>
    unfold runAgg
    rw [List.foldl_cons, processResults_noop (f v) st (h v (by simp))]
    exact ih (fun w hw => h w (List.mem_cons_of_mem v hw))

/-- C6: signature-based deduplication is idempotent: running the aggregation
session over the same two-variant input twice yields exactly the same
aggregate (hence the same cardinality and the same retained listings) as
running it once, and a listing whose signature has already been seen is
always discarded. -/
theorem aggregation_dedup_idempotent (v1 v2 : String)
    (f : String → List (String × List Listing)) :
    runAgg [v1, v2, v1, v2] f initAgg = runAgg [v1, v2] f initAgg
  ∧ ∀ (st : AggState) (site : String) (l : Listing),
      sigOf l ∈ st.seen → stepListing st site l = st := by
  constructor
  · have hsplit : runAgg [v1, v2, v1, v2] f initAgg
        = runAgg [v1, v2] f (runAgg [v1, v2] f initAgg) := by
      unfold runAgg
      rw [show [v1, v2, v1, v2] = [v1, v2] ++ [v1, v2] from rfl, List.foldl_append]
    rw [hsplit]
    exact runAgg_noop [v1, v2] f _ (fun v hv p hp => runAgg_covers [v1, v2] f initAgg v hv p hp)
  · exact fun st site l h => stepListing_noop st site l h

def wF : String → List (String × List Listing) := fun _ => [("Blocket", [wL1])]

/-- Witness for C6: concrete two-variant idempotence and a concrete discarded
duplicate. -/
theorem aggregation_dedup_idempotent_witness :
    runAgg ["amp", "amplifier", "amp", "amplifier"] wF initAgg
      = runAgg ["amp", "amplifier"] wF initAgg
  ∧ stepListing ⟨[("Blocket", [wL1])], [sigOf wL1]⟩ "Tradera" wL1
      = ⟨[("Blocket", [wL1])], [sigOf wL1]⟩ :=
  ⟨(aggregation_dedup_idempotent "amp" "amplifier" wF).1,
   (aggregation_dedup_idempotent "amp" "amplifier" wF).2
     ⟨[("Blocket", [wL1])], [sigOf wL1]⟩ "Tradera" wL1 (by decide)⟩

/-! ### C9: the global signature invariant of the aggregate -/

def allSigsList (agg : List (String × List Listing)) : List String :=
  (agg.map (fun p => p.2.map sigOf)).flatten

theorem allSigs_eq (st : AggState) : allSigs st = allSigsList st.aggregated := rfl

theorem allSigsList_ensureSite (agg : List (String × List Listing)) (site : String) :
    allSigsList (ensureSite agg site) = allSigsList agg := by
  unfold ensureSite
  by_cases h : site ∈ agg.map Prod.fst
  · rw [if_pos h]
  · rw [if_neg h]
    simp [allSigsList]

theorem allSigsList_appendToSite (agg : List (String × List Listing)) (site : String)
    (l : Listing) (h : site ∈ agg.map Prod.fst) :
    ∃ pre post, allSigsList agg = pre ++ post
      ∧ allSigsList (appendToSite agg site l) = pre ++ sigOf l :: post := by
  induction agg with
  | nil => cases h
  | cons p t ih =>
    obtain ⟨n, ls⟩ := p
    by_cases hn : n = site
    · refine ⟨ls.map sigOf, allSigsList t, by simp [allSigsList], ?_⟩
      simp [allSigsList, appendToSite, hn]
    · have h' : site ∈ t.map Prod.fst := by
        rcases List.mem_cons.mp h with he | ht
        · exact absurd he.symm hn
        · exact ht
      obtain ⟨pre, post, h1, h2⟩ := ih h'
      refine ⟨ls.map sigOf ++ pre, post, ?_, ?_⟩
      · simp only [allSigsList, List.map_cons, List.flatten_cons, List.append_assoc]
        exact congrArg (ls.map sigOf ++ ·) h1
      · simp only [appendToSite, if_neg hn, allSigsList, List.map_cons, List.flatten_cons,
          List.append_assoc]
        exact congrArg (ls.map sigOf ++ ·) h2

/-- The invariant: every retained signature is in `seen`, and retained
signatures are pairwise distinct across all provider buckets. -/
def aggInv (st : AggState) : Prop :=
  (∀ x ∈ allSigs st, x ∈ st.seen) ∧ (allSigs st).Nodup

theorem stepListing_inv (st : AggState) (site : String) (l : Listing)
    (hk : site ∈ st.aggregated.map Prod.fst) (h : aggInv st) :
    aggInv (stepListing st site l) := by
  unfold stepListing
  by_cases hs : sigOf l ∈ st.seen
  · rw [if_pos hs]
    exact h
  · rw [if_neg hs]
    obtain ⟨pre, post, h1, h2⟩ := allSigsList_appendToSite st.aggregated site l hk
    have hsigs : allSigs (⟨appendToSite st.aggregated site l, st.seen ++ [sigOf l]⟩ : AggState)
        = pre ++ sigOf l :: post := h2
    constructor
    · intro x hx
      rw [hsigs] at hx
      have hsplit : x ∈ pre ++ post ∨ x = sigOf l := by
        rcases List.mem_append.mp hx with hxx | hxx
        · exact Or.inl (List.mem_append_left _ hxx)
        · rcases List.mem_cons.mp hxx with hxx | hxx
          · exact Or.inr hxx
          · exact Or.inl (List.mem_append_right _ hxx)
      rcases hsplit with hxx | rfl
      · exact List.mem_append_left _ (h.1 x (by rw [allSigs_eq, h1]; exact hxx))
      · exact List.mem_append_right _ (by simp)
    · rw [hsigs]
      have hnd : (pre ++ post).Nodup := by
        have h2n := h.2
        rw [allSigs_eq, h1] at h2n
        exact h2n
      have hni : sigOf l ∉ pre ++ post := by
        intro hm
        exact hs (h.1 _ (by rw [allSigs_eq, h1]; exact hm))
      exact List.nodup_middle.mpr (List.nodup_cons.mpr ⟨hni, hnd⟩)

theorem foldl_stepListing_inv (ls : List Listing) (site : String) :
    ∀ st : AggState, site ∈ st.aggregated.map Prod.fst → aggInv st →
      aggInv (ls.foldl (fun s l => stepListing s site l) st) := by
  induction ls with
  | nil => intro st _ h; exact h
  | cons a rest ih =>
    intro st hk h
    rw [List.foldl_cons]
    exact ih _ (by rw [stepListing_keys]; exact hk) (stepListing_inv st site a hk h)

theorem stepSite_inv (st : AggState) (site : String) (ls : List Listing)
    (h : aggInv st) : aggInv (stepSite st site ls) := by
  unfold stepSite
  refine foldl_stepListing_inv ls site _ (ensureSite_keys_mem st.aggregated site) ?_
  constructor
  · intro x hx
    rw [allSigs_eq, allSigsList_ensureSite] at hx
    exact h.1 x hx
  · rw [allSigs_eq, allSigsList_ensureSite]
    exact h.2

theorem processResults_inv (res : List (String × List Listing)) :
    ∀ st : AggState, aggInv st → aggInv (processResults st res) := by
  induction res with
  | nil => intro st h; exact h
  | cons p t ih =>
    intro st h
    exact ih _ (stepSite_inv st p.1 p.2 h)

theorem runAgg_inv (vs : List String) (f : String → List (String × List Listing)) :
    ∀ st : AggState, aggInv st → aggInv (runAgg vs f st) := by
  induction vs with
  | nil => intro st h; exact h
  | cons v t ih =>
    intro st h
    exact ih _ (processResults_inv (f v) st h)

/-- C9: deduplication is global across providers: in the final aggregate of a
session started from the empty state, retained listings have pairwise
distinct signatures even across different provider buckets, and a listing
whose signature is already seen is discarded no matter which provider
returns it. -/
theorem dedup_global_across_providers (vs : List String)
    (f : String → List (String × List Listing)) :
    (allSigs (runAgg vs f initAgg)).Nodup
  ∧ ∀ (st : AggState) (site : String) (l : Listing),
      sigOf l ∈ st.seen → (stepListing st site l).aggregated = st.aggregated := by
  constructor
  · exact (runAgg_inv vs f initAgg ⟨fun x hx => (nomatch hx), List.nodup_nil⟩).2
  · intro st site l h
    unfold stepListing
    rw [if_pos h]

def wF2 : String → List (String × List Listing) :=
  fun _ => [("Blocket", [wL1]), ("Tradera", [wL1])]

/-- Witness for C9: a session in which a second provider returns the same
listing; the aggregate keeps distinct signatures and the duplicate insertion
leaves the aggregate unchanged. -/
theorem dedup_global_across_providers_witness :
    (allSigs (runAgg ["amp"] wF2 initAgg)).Nodup
  ∧ (stepListing ⟨[("Blocket", [wL1])], [sigOf wL1]⟩ "Tradera" wL1).aggregated
      = [("Blocket", [wL1])] :=
  ⟨(dedup_global_across_providers ["amp"] wF2).1,
   (dedup_global_across_providers ["amp"] wF2).2
     ⟨[("Blocket", [wL1])], [sigOf wL1]⟩ "Tradera" wL1 (by decide)⟩
